import Mathlib

/-!
Shallow embedding of the envArchitect registry-side trust and resolution
engine, checked against the repository's natural-language specification.

The SQL schema (src/packages/server/database/src/migrations, src/unnamed
SQL parts) and the TypeScript SDK (src/packages/sdks/ts/src/api) are
embedded from their sources.  The constraint solver, capability validator
and trust gate of the spec are not present under src/, so those
operations are modelled from the spec's words; each such definition is
marked `Modelled from the spec:` in its doc comment.
-/

/- ===== Semantic versions (package_versions: version_major / version_minor /
   version_patch / version_prerelease; ordering modelled from the spec,
   section 4.1 Selection) ===== -/

/-- One dot-separated prerelease identifier: numeric or alphabetic. -/
inductive PreId where
  | num (n : Nat)
  | alpha (s : String)
deriving DecidableEq, Repr

/-- Lexical comparison of character lists, character by character by code
point. -/
def charListLt : List Char → List Char → Bool
  | [], [] => false
  | [], _ :: _ => true
  | _ :: _, [] => false
  | a :: as, b :: bs =>
    if a < b then true
    else if b < a then false
    else charListLt as bs

/-- Lexical comparison of strings. -/
def stringLt (a b : String) : Bool := charListLt a.data b.data

/-- Modelled from the spec: prerelease identifiers compare field-by-field,
numeric fields numerically, alphabetic fields lexically (numeric identifiers
sort below alphabetic ones, as in SemVer). -/
def PreId.lt : PreId → PreId → Bool
  | .num a, .num b => decide (a < b)
  | .num _, .alpha _ => true
  | .alpha _, .num _ => false
  | .alpha a, .alpha b => stringLt a b

/-- A semantic version: major.minor.patch plus an optional prerelease tag,
the tag being a list of identifiers (`[]` means a release). -/
structure SemVer where
  major : Nat
  minor : Nat
  patch : Nat
  prerelease : List PreId
deriving DecidableEq, Repr

/-- Modelled from the spec: rank of prerelease lists at an equal
major.minor.patch.  An empty list is a release and outranks any prerelease;
two prerelease tags compare field-by-field, a strict prefix ranking lower. -/
def preRankLt : List PreId → List PreId → Bool
  | [], _ => false
  | _ :: _, [] => true
  | a :: as, b :: bs =>
    if PreId.lt a b then true
    else if PreId.lt b a then false
    else preRankLt as bs

/-- Modelled from the spec: compare major, then minor, then patch
numerically; a release always outranks a prerelease at equal
major.minor.patch; prerelease identifiers compare field-by-field. -/
def SemVer.lt (x y : SemVer) : Bool :=
  if x.major < y.major then true
  else if y.major < x.major then false
  else if x.minor < y.minor then true
  else if y.minor < x.minor then false
  else if x.patch < y.patch then true
  else if y.patch < x.patch then false
  else preRankLt x.prerelease y.prerelease

/- ===== Version requirements (dependencies.version_req range strings,
   e.g. "^1.0", ">=1.2"; semantics modelled from the spec) ===== -/

/-- Modelled from the spec: the version-requirement ranges the spec uses
(caret, lower bound, exact pin, and the unconstrained root request). -/
inductive VersionReq where
  | any
  | caret (base : SemVer)
  | ge (base : SemVer)
  | exact (base : SemVer)
deriving DecidableEq, Repr

/-- Modelled from the spec: whether a concrete version satisfies a
requirement.  A caret keeps the major component fixed. -/
def VersionReq.satisfies : VersionReq → SemVer → Bool
  | .any, _ => true
  | .caret base, v => decide (v.major = base.major) && !(SemVer.lt v base)
  | .ge base, v => !(SemVer.lt v base)
  | .exact base, v => decide (v = base)

/- ===== Registry data model (data model of the spec, section 3, and the
   SQL migrations) ===== -/

/-- approval_status column of package_versions: 'PENDING', 'APPROVED',
'REJECTED'. -/
inductive ApprovalStatus where
  | pending
  | approved
  | rejected
deriving DecidableEq, Repr

/-- dependencies.kind column: 'runtime', 'dev', 'build'. -/
inductive DepKind where
  | runtime
  | dev
  | build
deriving DecidableEq, Repr

/-- The SQL TEXT value of a dependency kind. -/
def DepKind.text : DepKind → String
  | .runtime => "runtime"
  | .dev => "dev"
  | .build => "build"

/-- A dependency edge declared by a version: target component, version
requirement and kind (dependencies table, spec section 3). -/
structure DepDecl where
  target : String
  req : VersionReq
  kind : DepKind
deriving DecidableEq, Repr

/-- One version row of one component: semver, lifecycle flags and its
outgoing dependency edges (package_versions joined with dependencies). -/
structure VersionEntry where
  component : String
  semver : SemVer
  approvalStatus : ApprovalStatus
  isYanked : Bool
  deps : List DepDecl
deriving DecidableEq, Repr

/-- The available-version snapshot a resolution runs against. -/
abbrev Registry := List VersionEntry

/- ===== Constraint solver (Modelled from the spec, section 4.1: the
   resolver itself is not under src/) ===== -/

/-- Modelled from the spec: the install profile selecting which edge kinds
are followed. -/
inductive Profile where
  | runtime
  | dev
  | buildAll
deriving DecidableEq, Repr

/-- Modelled from the spec: dev follows runtime+dev edges, the distribution
(runtime) profile follows runtime edges only, build-all follows all three. -/
def Profile.followsKind : Profile → DepKind → Bool
  | .runtime, .runtime => true
  | .runtime, .dev => false
  | .runtime, .build => false
  | .dev, .runtime => true
  | .dev, .dev => true
  | .dev, .build => false
  | .buildAll, _ => true

/-- One requirement that reached a component, together with the dependency
path along which it arrived (for ConflictError diagnosability). -/
structure PathReq where
  path : List String
  req : VersionReq
deriving DecidableEq, Repr

/-- The pin recorded for a component: the selected version and every
requirement (with its path) that has reached the component so far. -/
structure PinnedInfo where
  ver : SemVer
  reqs : List PathReq
deriving DecidableEq, Repr

/-- The flat arena of pinned components, addressed by component id. -/
abbrev Pinned := List (String × PinnedInfo)

/-- A pending unit of work: a requirement for a component arriving along one
path. -/
structure WorkItem where
  path : List String
  comp : String
  req : VersionReq
deriving DecidableEq, Repr

/-- Modelled from the spec, section 7: NotFoundError for an unknown
component, ConflictError naming every competing requirement path. -/
inductive ResolutionError where
  | notFound (comp : String) (path : List String)
  | conflict (comp : String) (competing : List PathReq)
deriving DecidableEq, Repr

/-- Internal result of the solver loop; `outOfFuel` is proved unreachable
for the fuel `resolve` supplies. -/
inductive LoopResult where
  | ok (pinned : Pinned)
  | err (e : ResolutionError)
  | outOfFuel
deriving DecidableEq, Repr

/-- Association lookup in the pinned arena. -/
def lookupPinned : Pinned → String → Option PinnedInfo
  | [], _ => none
  | (c, i) :: rest, c' => if c' = c then some i else lookupPinned rest c'

/-- Record one more requirement against an already pinned component. -/
def updateReqs (p : Pinned) (c : String) (pr : PathReq) : Pinned :=
  p.map fun e => if e.1 = c then (e.1, ⟨e.2.ver, e.2.reqs ++ [pr]⟩) else e

/-- Modelled from the spec: a version row is a candidate for a component
when it belongs to the component, is Approved, is not yanked, and satisfies
every requirement that reached the component. -/
def isCandidate (e : VersionEntry) (c : String) (reqs : List PathReq) : Bool :=
  decide (e.component = c) && decide (e.approvalStatus = ApprovalStatus.approved)
    && !e.isYanked && reqs.all fun pr => pr.req.satisfies e.semver

/-- Keep whichever of the two entries has the higher version. -/
def betterEntry (a b : VersionEntry) : VersionEntry :=
  if SemVer.lt a.semver b.semver then b else a

/-- Modelled from the spec: pick the highest version among the candidates. -/
def pickHighest : List VersionEntry → Option VersionEntry
  | [] => none
  | e :: es => some (es.foldl betterEntry e)

/-- The dependency edges of an entry that the profile follows, turned into
work items extending the arrival path. -/
def expandDeps (e : VersionEntry) (profile : Profile) (path : List String) :
    List WorkItem :=
  (e.deps.filter fun d => profile.followsKind d.kind).map
    fun d => ⟨path ++ [d.target], d.target, d.req⟩

/-- Modelled from the spec, section 4.1: the solver worklist loop.  A
component is expanded (candidates searched, version pinned, edges enqueued)
at most once; a revisited component only has its already-pinned version
re-checked against the new requirement.  An empty candidate set yields
ConflictError with every competing requirement path, or NotFoundError when
the component has no versions at all. -/
def loop (reg : Registry) (profile : Profile) :
    Nat → Pinned → List WorkItem → LoopResult
  | 0, _, _ => .outOfFuel
  | _ + 1, pinned, [] => .ok pinned
  | fuel + 1, pinned, i :: rest =>
    match lookupPinned pinned i.comp with
    | some info =>
      if i.req.satisfies info.ver then
        loop reg profile fuel (updateReqs pinned i.comp ⟨i.path, i.req⟩) rest
      else
        .err (.conflict i.comp (info.reqs ++ [⟨i.path, i.req⟩]))
    | none =>
      match pickHighest (reg.filter fun e => isCandidate e i.comp [⟨i.path, i.req⟩]) with
      | some e =>
        loop reg profile fuel ((i.comp, ⟨e.semver, [⟨i.path, i.req⟩]⟩) :: pinned)
          (rest ++ expandDeps e profile i.path)
      | none =>
        if reg.any fun e => decide (e.component = i.comp) then
          .err (.conflict i.comp [⟨i.path, i.req⟩])
        else
          .err (.notFound i.comp i.path)

/-- The largest number of dependency edges any version in the registry
declares; bounds how many work items one expansion can enqueue. -/
def maxDeps (reg : Registry) : Nat :=
  reg.foldl (fun m e => max m e.deps.length) 0

/-- Number of distinct components of the registry not yet pinned. -/
def unpinnedCount (reg : Registry) (pinned : Pinned) : Nat :=
  ((reg.map (·.component)).dedup.filter
    fun c => (lookupPinned pinned c).isNone).length

/-- Decreasing measure of the solver loop: pending work plus the work the
remaining expansions can still create. -/
def loopBound (reg : Registry) (pinned : Pinned) (queue : List WorkItem) : Nat :=
  queue.length + unpinnedCount reg pinned * (maxDeps reg + 1)

/-- The initial worklist of a resolution: one item per root request, the
path starting at the requested component. -/
def initQueue (requests : List (String × VersionReq)) : List WorkItem :=
  requests.map fun r => ⟨[r.1], r.1, r.2⟩

/-- Fuel sufficient for the whole resolution (strictly above the measure). -/
def initFuel (reg : Registry) (requests : List (String × VersionReq)) : Nat :=
  loopBound reg [] (initQueue requests) + 1

/-- Modelled from the spec, section 4.1: resolve the requested roots against
an available-version snapshot.  The outOfFuel branch is unreachable because
initFuel exceeds the loop measure (see loop_fuel_sufficient below). -/
def resolve (reg : Registry) (profile : Profile)
    (requests : List (String × VersionReq)) : Except ResolutionError Pinned :=
  match loop reg profile (initFuel reg requests) [] (initQueue requests) with
  | .ok p => .ok p
  | .err e => .error e
  | .outOfFuel => .error (.conflict "" [])

/- ===== Trust gate (Modelled from the spec, section 4.3: the trust gate is
   not under src/; signer types and statuses follow the signatures and
   scan_results tables) ===== -/

/-- signatures.signer_type column: 'DEVELOPER', 'PLATFORM'. -/
inductive SignerType where
  | developer
  | platform
deriving DecidableEq, Repr

/-- One row of the signatures table (the fields the trust gate consults). -/
structure Signature where
  versionId : String
  signerType : SignerType
deriving DecidableEq, Repr

/-- scan_results.status enum scan_status: 'pending', 'safe', 'suspicious',
'malicious'. -/
inductive ScanStatus where
  | pending
  | safe
  | suspicious
  | malicious
deriving DecidableEq, Repr

/-- Every value of the scan_status enum, in declaration order. -/
def allScanStatuses : List ScanStatus :=
  [.pending, .safe, .suspicious, .malicious]

/-- Result of the trust gate. -/
inductive TrustResult where
  | trusted
  | untrusted (reason : String)
deriving DecidableEq, Repr

/-- Number of Platform signatures among the version's signature rows. -/
def platformSigCount (sigs : List Signature) : Nat :=
  sigs.countP fun s => decide (s.signerType = SignerType.platform)

/-- Number of Developer signatures among the version's signature rows. -/
def developerSigCount (sigs : List Signature) : Nat :=
  sigs.countP fun s => decide (s.signerType = SignerType.developer)

/-- Modelled from the spec, section 4.3: Trusted requires ScanResult.status
= Safe, exactly one Platform signature, at least one Developer signature,
approvalStatus = Approved and isYanked = false; Suspicious reports "pending
review", a missing Platform signature reports "missing platform
signature". -/
def checkTrust (v : VersionEntry) (sigs : List Signature) (scan : ScanStatus) :
    TrustResult :=
  match scan with
  | .malicious => .untrusted "malicious scan verdict"
  | .suspicious => .untrusted "pending review"
  | .pending => .untrusted "scan pending"
  | .safe =>
    if platformSigCount sigs = 0 then .untrusted "missing platform signature"
    else if 1 < platformSigCount sigs then .untrusted "multiple platform signatures"
    else if developerSigCount sigs = 0 then .untrusted "missing developer signature"
    else if v.approvalStatus ≠ ApprovalStatus.approved then .untrusted "not approved"
    else if v.isYanked then .untrusted "version is yanked"
    else .trusted

/- ===== Capability validator (Modelled from the spec, section 4.2 and
   design note on closed tagged unions: the validator is not under src/) ===== -/

/-- Modelled from the spec: capability scopes as a closed tagged union, one
variant per capability kind with its own scope shape (fs paths, outbound
host, executable name where `none` is an unscoped execute, env variable). -/
inductive CapScope where
  | fsReadScope (path : String)
  | fsWriteScope (path : String)
  | netOutboundScope (host : String)
  | sysExecScope (exeName : Option String)
  | envReadScope (varName : String)
deriving DecidableEq, Repr

/-- Modelled from the spec: a declaration whose scope is unconstrained
(filesystem-root read or write, wildcard host or env, unscoped execute). -/
def unconstrainedScope : CapScope → Bool
  | .fsReadScope p => decide (p = "/")
  | .fsWriteScope p => decide (p = "/")
  | .netOutboundScope h => decide (h = "*")
  | .sysExecScope e => e.isNone
  | .envReadScope v => decide (v = "*")

/-- Modelled from the spec: containment per token kind; path containment by
granted-path prefix, host containment by exact or suffix-domain match,
exact-name match for executables.  No implicit broadening across kinds. -/
def scopeGrantedBy (declared granted : CapScope) : Bool :=
  match declared, granted with
  | .fsReadScope p, .fsReadScope g => p.startsWith g
  | .fsWriteScope p, .fsWriteScope g => p.startsWith g
  | .netOutboundScope h, .netOutboundScope g =>
    decide (h = g) || h.endsWith ("." ++ g)
  | .sysExecScope (some n), .sysExecScope (some m) => decide (n = m)
  | .envReadScope v, .envReadScope g => decide (v = g)
  | _, _ => false

/-- Modelled from the spec, section 7: an ungranted capability is a
recoverable CapabilityError; a dangerous capability shape is a
PolicyViolation, a distinct error not recoverable by granting. -/
inductive ValidationError where
  | capabilityError (declared : CapScope)
  | policyViolation (declared : CapScope)
deriving DecidableEq, Repr

/-- Modelled from the spec: check one declaration.  The unconstrained-scope
check runs first, independent of grant status; then default-deny against
the granted policy. -/
def checkDeclaration (granted : List CapScope) (d : CapScope) :
    Except ValidationError Unit :=
  if unconstrainedScope d then .error (.policyViolation d)
  else if granted.any (scopeGrantedBy d) then .ok ()
  else .error (.capabilityError d)

/-- Modelled from the spec, section 4.2: validate every declared capability
against the caller's granted policy, failing on the first offending
declaration. -/
def validate : List CapScope → List CapScope → Except ValidationError Unit
  | [], _ => .ok ()
  | d :: ds, granted =>
    match checkDeclaration granted d with
    | .ok _ => validate ds granted
    | .error e => .error e

/- ===== scan_results table (src/unnamed/part_006, migration
   0008_scan_results) ===== -/

/-- One row of scan_results: version_id, status (enum scan_status,
DEFAULT 'pending'), report (JSONB, DEFAULT the empty object). -/
structure ScanResultRow where
  versionId : String
  status : ScanStatus
  report : String
deriving DecidableEq, Repr

/-- Build a scan_results row; an absent status takes the SQL column default
'pending', an absent report the default empty JSON object. -/
def mkScanResult (versionId : String) (status : Option ScanStatus) :
    ScanResultRow :=
  ⟨versionId, status.getD .pending, "\x7b\x7d"⟩

/-- The UNIQUE (version_id) constraint uq_scan_results_version_id of the
scan_results table, over the rows of the table. -/
def scanResultsUnique (rows : List ScanResultRow) : Prop :=
  (rows.map (·.versionId)).Nodup

/-- The two tables the publish lifecycle touches: published version ids and
their scan results. -/
structure RegistryTables where
  publishedVersionIds : List String
  scanResults : List ScanResultRow
deriving Repr

/-- Modelled from the spec: the publish path (not under src/) creates the
Version and its ScanResult in the same step; the scan result starts
Pending and is updated asynchronously by the external scanner. -/
def publishVersion (t : RegistryTables) (versionId : String) : RegistryTables :=
  ⟨versionId :: t.publishedVersionIds, mkScanResult versionId none :: t.scanResults⟩

/- ===== dependencies table (migration 0003_registry_foundation.sql) ===== -/

/-- One row of the dependencies table: source_id, target_id, version_req,
kind. -/
structure DependencyEdgeRow where
  sourceId : String
  targetId : String
  versionReq : String
  kind : String
deriving DecidableEq, Repr

/-- The kind values the schema documents: 'runtime', 'dev', 'build'. -/
def dependencyKinds : List String := ["runtime", "dev", "build"]

/-- The PRIMARY KEY (source_id, target_id) of the dependencies table: the
(source, target) pairs of the stored rows are distinct, so several edges
may share a source as long as their targets differ. -/
def dependenciesPKOk (rows : List DependencyEdgeRow) : Prop :=
  (rows.map fun r => (r.sourceId, r.targetId)).Nodup

/-- Modelled from the spec: application-level well-formedness of a
dependency edge (the publish-side validation enforcing it is not under
src/); self-edges are forbidden and the kind is closed over
runtime/dev/build. -/
def edgeWellFormed (r : DependencyEdgeRow) : Bool :=
  decide (r.sourceId ≠ r.targetId) && decide (r.kind ∈ dependencyKinds)

/- ===== TypeScript SDK: Capability tokens
   (src/packages/sdks/ts/src/api/types.ts) ===== -/

/-- The Capability union of types.ts: "fs-read" | "fs-write" |
"net-outbound" | "sys-exec" | "env-read". -/
inductive Capability where
  | fsRead
  | fsWrite
  | netOutbound
  | sysExec
  | envRead
deriving DecidableEq, Repr

/-- The string literal of each Capability variant, exactly as written in
types.ts. -/
def Capability.token : Capability → String
  | .fsRead => "fs-read"
  | .fsWrite => "fs-write"
  | .netOutbound => "net-outbound"
  | .sysExec => "sys-exec"
  | .envRead => "env-read"

/-- The five token strings of the Capability union, in source order. -/
def capabilityTokens : List String :=
  ["fs-read", "fs-write", "net-outbound", "sys-exec", "env-read"]

/-- Every Capability variant, in source order. -/
def allCapabilities : List Capability :=
  [.fsRead, .fsWrite, .netOutbound, .sysExec, .envRead]

/- ===== TypeScript SDK: EnvBuilder
   (src/packages/sdks/ts/src/api/builder.ts) ===== -/

/-- PlatformConstraints of types.ts: lists of supported os and arch values. -/
structure PlatformConstraints where
  os : List String
  arch : List String
deriving DecidableEq, Repr

/-- The PackageMetadata fields the embedded EnvBuilder methods touch. -/
structure PackageManifest where
  name : Option String
  version : Option String
  dependencies : List (String × String)
  devDependencies : List (String × String)
  capabilities : List Capability
  platform : Option PlatformConstraints
deriving DecidableEq, Repr

/-- The EnvBuilder class: a partial manifest plus plan instructions. -/
structure EnvBuilder where
  manifest : PackageManifest
  planInstructions : List String
deriving DecidableEq, Repr

/-- A freshly constructed EnvBuilder: empty collections, no platform
constraint (the TS field is simply absent). -/
def EnvBuilder.new : EnvBuilder :=
  ⟨⟨none, none, [], [], [], none⟩, []⟩

/-- builder.ts supportPlatform: initialize the platform field on first use,
then push os and arch only when not already included. -/
def EnvBuilder.supportPlatform (b : EnvBuilder) (os arch : String) : EnvBuilder :=
  let p := match b.manifest.platform with
    | none => PlatformConstraints.mk [] []
    | some p => p
  let os' := if os ∈ p.os then p.os else p.os ++ [os]
  let arch' := if arch ∈ p.arch then p.arch else p.arch ++ [arch]
  { b with manifest := { b.manifest with platform := some ⟨os', arch'⟩ } }

/-- The platform lists of a builder are duplicate-free (trivially so while
the field is still absent). -/
def platformNodup (b : EnvBuilder) : Bool :=
  match b.manifest.platform with
  | none => true
  | some p => decide p.os.Nodup && decide p.arch.Nodup

/-- Run a whole sequence of supportPlatform calls from a starting builder. -/
def applyPlatformCalls (b : EnvBuilder) (calls : List (String × String)) :
    EnvBuilder :=
  calls.foldl (fun b c => b.supportPlatform c.1 c.2) b

/- ===== TypeScript SDK: ConfigUtils.getConfig
   (src/unnamed/part_009, utils/config.ts) ===== -/

/-- JavaScript values as the untyped configuration object holds them. -/
inductive JsValue where
  | undefinedV
  | nullV
  | boolV (b : Bool)
  | numV (n : Int)
  | strV (s : String)
  | obj (fields : List (String × JsValue))

/-- JavaScript truthiness: undefined, null, false, 0 and the empty string
are falsy; every object is truthy. -/
def truthy : JsValue → Bool
  | .undefinedV => false
  | .nullV => false
  | .boolV b => b
  | .numV n => decide (n ≠ 0)
  | .strV s => decide (s ≠ "")
  | .obj _ => true

/-- Property access `v[key]`: the first matching field of an object,
undefined on a missing field or a non-object. -/
def jsGet : JsValue → String → JsValue
  | .obj fields, k =>
    match fields.find? fun f => decide (f.1 = k) with
    | some f => f.2
    | none => .undefinedV
  | _, _ => .undefinedV

/-- The ResolutionContext fields getConfig consults: configuration is the
optional parsed content of env.toml / env.json. -/
structure SdkResolutionContext where
  projectRoot : String
  configuration : Option JsValue

/-- ConfigUtils.getConfig of utils/config.ts: bail out on a missing or
falsy configuration, then try the root level, the plugin namespace and the
tool namespace in that order, each only when the looked-up value is
truthy. -/
def ConfigUtils.getConfig (ctx : SdkResolutionContext) (key : String) : JsValue :=
  match ctx.configuration with
  | none => .undefinedV
  | some config =>
    if truthy config then
      if truthy (jsGet config key) then jsGet config key
      else if truthy (jsGet config "plugin") && truthy (jsGet (jsGet config "plugin") key) then
        jsGet (jsGet config "plugin") key
      else if truthy (jsGet config "tool") && truthy (jsGet (jsGet config "tool") key) then
        jsGet (jsGet config "tool") key
      else .undefinedV
    else .undefinedV

/-- The claim's description of getConfig, written from its words: undefined
when configuration is absent, otherwise the root entry if truthy, else the
plugin-namespace entry if truthy, else the tool-namespace entry if truthy,
else undefined. -/
def getConfigSpecModel (ctx : SdkResolutionContext) (key : String) : JsValue :=
  match ctx.configuration with
  | none => .undefinedV
  | some config =>
    if truthy (jsGet config key) then jsGet config key
    else if truthy (jsGet (jsGet config "plugin") key) then
      jsGet (jsGet config "plugin") key
    else if truthy (jsGet (jsGet config "tool") key) then
      jsGet (jsGet config "tool") key
    else .undefinedV

/- ===== SDK build tooling: Builder.build
   (src/unnamed/part_008, examples/node-ts-plugin/scripts/build.mjs) ===== -/

/-- ComponentizeOptions of the build script (the fields build reads). -/
structure ComponentizeOptions where
  inputPath : String
  outputPath : String
  witPath : Option String
  worldName : Option String
deriving DecidableEq, Repr

/-- POSIX isAbsolute of node:path: the path begins with the separator. -/
def isAbsolutePath (s : String) : Bool :=
  match s.data with
  | [] => false
  | c :: _ => decide (c = '/')

/-- node:path resolve of a relative segment against a base directory;
dot-segment normalization is not needed by the claims. -/
def resolvePath (base p : String) : String :=
  if isAbsolutePath p then p else base ++ "/" ++ p

/-- The ambient process state Builder.build consults: working directory,
the default WIT directory next to the script, which paths exist, and the
outcome componentize would produce for a given input file. -/
structure BuildEnv where
  cwd : String
  defaultWitPath : String
  existsSync : String → Bool
  componentizeResult : String → Except String String

/-- Outcome of one Builder.build call: normal completion writing the output
file, or a thrown Error carrying its message. -/
inductive BuildOutcome where
  | ok (outputPath : String)
  | thrown (msg : String)
deriving DecidableEq, Repr

/-- The resolved input path of a build, as computed at the top of
Builder.build. -/
def resolvedInput (env : BuildEnv) (opts : ComponentizeOptions) : String :=
  if isAbsolutePath opts.inputPath then opts.inputPath
  else resolvePath env.cwd opts.inputPath

/-- The resolved WIT directory of a build: the witPath option resolved
against cwd, or the default WIT path when absent. -/
def resolvedWit (env : BuildEnv) (opts : ComponentizeOptions) : String :=
  match opts.witPath with
  | some w => if isAbsolutePath w then w else resolvePath env.cwd w
  | none => env.defaultWitPath

/-- Builder.build of the build script: resolve the paths, throw when the
input file or the WIT directory does not exist, then componentize; a
componentize failure is logged and rethrown. -/
def Builder.build (env : BuildEnv) (opts : ComponentizeOptions) : BuildOutcome :=
  let input := resolvedInput env opts
  let output := if isAbsolutePath opts.outputPath then opts.outputPath
    else resolvePath env.cwd opts.outputPath
  let wit := resolvedWit env opts
  if env.existsSync input = false then
    .thrown ("Input file not found: " ++ input)
  else if env.existsSync wit = false then
    .thrown ("WIT directory not found: " ++ wit)
  else
    match env.componentizeResult input with
    | .ok _ => .ok output
    | .error e => .thrown e

/-- A build environment in which no path exists. -/
def emptyBuildEnv : BuildEnv :=
  ⟨"/work", "/sdk/wit", fun _ => false, fun _ => .error "componentize failed"⟩

/-- Concrete options naming an absolute input path that does not exist in
emptyBuildEnv. -/
def missingInputOpts : ComponentizeOptions :=
  ⟨"/app/in.js", "out.wasm", none, none⟩

/- ===== Concrete scenarios from the spec's testable properties ===== -/

/-- The requirement "^1.0". -/
def reqCaret10 : VersionReq := .caret ⟨1, 0, 0, []⟩

/-- The requirement ">=1.2". -/
def reqGe12 : VersionReq := .ge ⟨1, 2, 0, []⟩

/-- Diamond root A 1.0.0: requires B(^1.0) and C(^1.0) at runtime. -/
def entryA : VersionEntry :=
  ⟨"A", ⟨1, 0, 0, []⟩, .approved, false,
    [⟨"B", reqCaret10, .runtime⟩, ⟨"C", reqCaret10, .runtime⟩]⟩

/-- Diamond node B 1.0.0: requires D(^1.0) at runtime. -/
def entryB : VersionEntry :=
  ⟨"B", ⟨1, 0, 0, []⟩, .approved, false, [⟨"D", reqCaret10, .runtime⟩]⟩

/-- Diamond node C 1.0.0: requires D(>=1.2) at runtime. -/
def entryC : VersionEntry :=
  ⟨"C", ⟨1, 0, 0, []⟩, .approved, false, [⟨"D", reqGe12, .runtime⟩]⟩

/-- D 1.1.0, Approved and not yanked, no dependencies. -/
def entryD11 : VersionEntry := ⟨"D", ⟨1, 1, 0, []⟩, .approved, false, []⟩

/-- D 1.2.0, Approved and not yanked, no dependencies. -/
def entryD12 : VersionEntry := ⟨"D", ⟨1, 2, 0, []⟩, .approved, false, []⟩

/-- The diamond snapshot with both D versions available. -/
def diamondReg : Registry := [entryA, entryB, entryC, entryD11, entryD12]

/-- The diamond snapshot in which only D 1.1.0 exists. -/
def diamondRegLow : Registry := [entryA, entryB, entryC, entryD11]

/-- Two-cycle snapshot: A dev-depends-on B and B dev-depends-on A. -/
def cycleReg : Registry :=
  [⟨"A", ⟨1, 0, 0, []⟩, .approved, false, [⟨"B", .any, .dev⟩]⟩,
   ⟨"B", ⟨1, 0, 0, []⟩, .approved, false, [⟨"A", .any, .dev⟩]⟩]

/-- An Approved, non-yanked version for the trust-flip scenario. -/
def flipVersion : VersionEntry := ⟨"X", ⟨1, 0, 0, []⟩, .approved, false, []⟩

/-- A Developer signature row for the trust-flip scenario. -/
def devSig : Signature := ⟨"x-1.0.0", .developer⟩

/-- A Platform signature row for the trust-flip scenario. -/
def platSig : Signature := ⟨"x-1.0.0", .platform⟩

/-- The requirement set accumulated for D in the successful diamond run:
both arrival paths with their requirements. -/
def diamondDReqs : List PathReq :=
  [⟨["A", "B", "D"], reqCaret10⟩, ⟨["A", "C", "D"], reqGe12⟩]

/-- The pinned graph of the successful diamond resolution. -/
def diamondResult : Pinned :=
  [("D", ⟨⟨1, 2, 0, []⟩, diamondDReqs⟩),
   ("C", ⟨⟨1, 0, 0, []⟩, [⟨["A", "C"], reqCaret10⟩]⟩),
   ("B", ⟨⟨1, 0, 0, []⟩, [⟨["A", "B"], reqCaret10⟩]⟩),
   ("A", ⟨⟨1, 0, 0, []⟩, [⟨["A"], .any⟩]⟩)]

/-- The pinned graph of the dev-profile two-cycle resolution: A and B each
exactly once, the revisit of A recorded as a second requirement only. -/
def cycleResult : Pinned :=
  [("B", ⟨⟨1, 0, 0, []⟩, [⟨["A", "B"], .any⟩]⟩),
   ("A", ⟨⟨1, 0, 0, []⟩, [⟨["A"], .any⟩, ⟨["A", "B", "A"], .any⟩]⟩)]

/-- The selection property of a pinned arena: every pinned component holds a
version that is a candidate for the conjunction of all requirements recorded
against the component, and no candidate for that conjunction is higher. -/
def SelectedHighest (reg : Registry) (pinned : Pinned) : Prop :=
  ∀ c info, lookupPinned pinned c = some info →
    (∃ e ∈ reg, isCandidate e c info.reqs = true ∧ e.semver = info.ver) ∧
    ∀ e ∈ reg, isCandidate e c info.reqs = true →
      SemVer.lt info.ver e.semver = false

/- ===================================================================== -/
/- ===== Theorems ===== -/
/- ===================================================================== -/

/- ----- Order lemmas for the version ordering ----- -/

theorem charListLt_irrefl : ∀ l : List Char, charListLt l l = false
  | [] => rfl
  | c :: cs => by
    simp [charListLt, lt_self_iff_false, charListLt_irrefl cs]

theorem charListLt_trans : ∀ {x y z : List Char}, charListLt x y = true →
    charListLt y z = true → charListLt x z = true
  | [], [], _, h1, _ => by simp [charListLt] at h1
  | [], _ :: _, [], _, h2 => by simp [charListLt] at h2
  | [], _ :: _, _ :: _, _, _ => rfl
  | _ :: _, [], _, h1, _ => by simp [charListLt] at h1
  | _ :: _, _ :: _, [], _, h2 => by simp [charListLt] at h2
  | a :: as, b :: bs, c :: cs, h1, h2 => by
    simp only [charListLt] at h1 h2 ⊢
    by_cases hab : a < b
    · by_cases hbc : b < c
      · rw [if_pos (lt_trans hab hbc)]
      · by_cases hcb : c < b
        · rw [if_neg hbc, if_pos hcb] at h2
          exact absurd h2 (by simp)
        · have hbceq : b = c := le_antisymm (not_lt.mp hcb) (not_lt.mp hbc)
          subst hbceq
          rw [if_pos hab]
    · by_cases hba : b < a
      · rw [if_neg hab, if_pos hba] at h1
        exact absurd h1 (by simp)
      · have habeq : a = b := le_antisymm (not_lt.mp hba) (not_lt.mp hab)
        subst habeq
        rw [if_neg hab, if_neg hab] at h1
        by_cases hac : a < c
        · rw [if_pos hac]
        · by_cases hca : c < a
          · rw [if_neg hac, if_pos hca] at h2
            exact absurd h2 (by simp)
          · have haceq : a = c := le_antisymm (not_lt.mp hca) (not_lt.mp hac)
            subst haceq
            rw [if_neg hac, if_neg hac] at h2 ⊢
            exact charListLt_trans h1 h2

theorem charListLt_eq_of_not_lt : ∀ {x y : List Char}, charListLt x y = false →
    charListLt y x = false → x = y
  | [], [], _, _ => rfl
  | [], _ :: _, h1, _ => by simp [charListLt] at h1
  | _ :: _, [], _, h2 => by simp [charListLt] at h2
  | a :: as, b :: bs, h1, h2 => by
    simp only [charListLt] at h1 h2
    by_cases hab : a < b
    · rw [if_pos hab] at h1
      exact absurd h1 (by simp)
    · by_cases hba : b < a
      · rw [if_pos hba] at h2
        exact absurd h2 (by simp)
      · have habeq : a = b := le_antisymm (not_lt.mp hba) (not_lt.mp hab)
        subst habeq
        rw [if_neg hab, if_neg hab] at h1 h2
        exact congrArg (List.cons a) (charListLt_eq_of_not_lt h1 h2)

theorem stringLt_irrefl (s : String) : stringLt s s = false :=
  charListLt_irrefl s.data

theorem stringLt_trans {a b c : String} (h1 : stringLt a b = true)
    (h2 : stringLt b c = true) : stringLt a c = true :=
  charListLt_trans h1 h2

theorem stringLt_eq_of_not_lt {a b : String} (h1 : stringLt a b = false)
    (h2 : stringLt b a = false) : a = b := by
  have hd : a.data = b.data := charListLt_eq_of_not_lt h1 h2
  cases a
  cases b
  exact congrArg String.mk hd

theorem preIdLt_irrefl (a : PreId) : PreId.lt a a = false := by
  cases a with
  | num n => simp [PreId.lt]
  | alpha s => simp [PreId.lt, stringLt_irrefl]

theorem preIdLt_trans : ∀ {a b c : PreId}, PreId.lt a b = true →
    PreId.lt b c = true → PreId.lt a c = true
  | .num _, .num _, .num _, h1, h2 => by
    simp only [PreId.lt, decide_eq_true_eq] at h1 h2 ⊢
    omega
  | .num _, .num _, .alpha _, _, _ => rfl
  | .num _, .alpha _, .num _, _, h2 => by simp [PreId.lt] at h2
  | .num _, .alpha _, .alpha _, _, _ => rfl
  | .alpha _, .num _, _, h1, _ => by simp [PreId.lt] at h1
  | .alpha _, .alpha _, .num _, _, h2 => by simp [PreId.lt] at h2
  | .alpha _, .alpha _, .alpha _, h1, h2 => by
    simp only [PreId.lt] at h1 h2 ⊢
    exact stringLt_trans h1 h2

theorem preIdLt_eq_of_not_lt : ∀ {a b : PreId}, PreId.lt a b = false →
    PreId.lt b a = false → a = b
  | .num _, .num _, h1, h2 => by
    simp only [PreId.lt, decide_eq_false_iff_not, not_lt] at h1 h2
    exact congrArg PreId.num (le_antisymm h2 h1)
  | .num _, .alpha _, h1, _ => by simp [PreId.lt] at h1
  | .alpha _, .num _, _, h2 => by simp [PreId.lt] at h2
  | .alpha _, .alpha _, h1, h2 => by
    simp only [PreId.lt] at h1 h2
    exact congrArg PreId.alpha (stringLt_eq_of_not_lt h1 h2)

theorem preRankLt_irrefl (l : List PreId) : preRankLt l l = false := by
  induction l with
  | nil => rfl
  | cons a as ih => simp [preRankLt, preIdLt_irrefl, ih]

theorem preRankLt_trans : ∀ {x y z : List PreId}, preRankLt x y = true →
    preRankLt y z = true → preRankLt x z = true
  | [], _, _, h1, _ => by simp [preRankLt] at h1
  | _ :: _, [], _, _, h2 => by simp [preRankLt] at h2
  | _ :: _, _ :: _, [], _, _ => by simp [preRankLt]
  | a :: as, b :: bs, c :: cs, h1, h2 => by
    simp only [preRankLt] at h1 h2 ⊢
    cases hab : PreId.lt a b with
    | true =>
      cases hbc : PreId.lt b c with
      | true => simp [preIdLt_trans hab hbc]
      | false =>
        cases hcb : PreId.lt c b with
        | true => simp [hbc, hcb] at h2
        | false =>
          have hbceq : b = c := preIdLt_eq_of_not_lt hbc hcb
          subst hbceq
          simp [hab]
    | false =>
      cases hba : PreId.lt b a with
      | true => simp [hab, hba] at h1
      | false =>
        have habeq : a = b := preIdLt_eq_of_not_lt hab hba
        subst habeq
        simp only [hab, if_neg, Bool.false_eq_true, if_false] at h1 ⊢
        cases hac : PreId.lt a c with
        | true => simp
        | false =>
          cases hca : PreId.lt c a with
          | true => simp [hac, hca] at h2
          | false =>
            have haceq : a = c := preIdLt_eq_of_not_lt hac hca
            subst haceq
            simp only [hac, Bool.false_eq_true, if_false] at h2 ⊢
            exact preRankLt_trans h1 h2

theorem preRank_eq_of_not_lt : ∀ {x y : List PreId}, preRankLt x y = false →
    preRankLt y x = false → x = y
  | [], [], _, _ => rfl
  | [], _ :: _, _, h2 => by simp [preRankLt] at h2
  | _ :: _, [], h1, _ => by simp [preRankLt] at h1
  | a :: as, b :: bs, h1, h2 => by
    simp only [preRankLt] at h1 h2
    cases hab : PreId.lt a b with
    | true => simp [hab] at h1
    | false =>
      cases hba : PreId.lt b a with
      | true => simp [hba] at h2
      | false =>
        have habeq : a = b := preIdLt_eq_of_not_lt hab hba
        subst habeq
        simp only [hab, preIdLt_irrefl, Bool.false_eq_true, if_false] at h1 h2
        rw [preRank_eq_of_not_lt h1 h2]

theorem semverLt_irrefl (v : SemVer) : SemVer.lt v v = false := by
  simp [SemVer.lt, preRankLt_irrefl]

theorem semverLt_iff {x y : SemVer} : SemVer.lt x y = true ↔
    (x.major < y.major ∨ (x.major = y.major ∧ (x.minor < y.minor ∨
      (x.minor = y.minor ∧ (x.patch < y.patch ∨ (x.patch = y.patch ∧
        preRankLt x.prerelease y.prerelease = true)))))) := by
  simp only [SemVer.lt]
  split_ifs with h1 h2 h3 h4 h5 h6
  · simp only [true_iff]
    exact Or.inl h1
  · simp only [Bool.false_eq_true, false_iff]
    rintro (h | ⟨he, -⟩) <;> omega
  · simp only [true_iff]
    exact Or.inr ⟨by omega, Or.inl h3⟩
  · simp only [Bool.false_eq_true, false_iff]
    rintro (h | ⟨he, h | ⟨he2, -⟩⟩) <;> omega
  · simp only [true_iff]
    exact Or.inr ⟨by omega, Or.inr ⟨by omega, Or.inl h5⟩⟩
  · simp only [Bool.false_eq_true, false_iff]
    rintro (h | ⟨he, h | ⟨he2, h | ⟨he3, -⟩⟩⟩) <;> omega
  · constructor
    · intro hp
      exact Or.inr ⟨by omega, Or.inr ⟨by omega, Or.inr ⟨by omega, hp⟩⟩⟩
    · rintro (h | ⟨he, h | ⟨he2, h | ⟨he3, hp⟩⟩⟩) <;> first | omega | exact hp

theorem semverLt_trans {a b c : SemVer} (h1 : SemVer.lt a b = true)
    (h2 : SemVer.lt b c = true) : SemVer.lt a c = true := by
  rw [semverLt_iff] at h1 h2 ⊢
  rcases h1 with h1 | ⟨e1, h1 | ⟨f1, h1 | ⟨g1, p1⟩⟩⟩ <;>
    rcases h2 with h2 | ⟨e2, h2 | ⟨f2, h2 | ⟨g2, p2⟩⟩⟩ <;>
    first
      | exact Or.inl (by omega)
      | exact Or.inr ⟨by omega, Or.inl (by omega)⟩
      | exact Or.inr ⟨by omega, Or.inr ⟨by omega, Or.inl (by omega)⟩⟩
      | exact Or.inr ⟨by omega, Or.inr ⟨by omega, Or.inr ⟨by omega,
          preRankLt_trans p1 p2⟩⟩⟩

theorem semverLt_eq_of_not_lt {x y : SemVer} (h1 : SemVer.lt x y = false)
    (h2 : SemVer.lt y x = false) : x = y := by
  rw [Bool.eq_false_iff, Ne, semverLt_iff] at h1 h2
  push_neg at h1 h2
  have e1 : x.major = y.major := by omega
  have hx1 := h1.2 e1
  have hy1 := h2.2 e1.symm
  have e2 : x.minor = y.minor := by omega
  have hx2 := hx1.2 e2
  have hy2 := hy1.2 e2.symm
  have e3 : x.patch = y.patch := by omega
  have hx3 := hx2.2 e3
  have hy3 := hy2.2 e3.symm
  have e4 : x.prerelease = y.prerelease :=
    preRank_eq_of_not_lt (Bool.not_eq_true _ ▸ hx3) (Bool.not_eq_true _ ▸ hy3)
  obtain ⟨ma, mi, pa, pre⟩ := x
  obtain ⟨mb, nb, qb, prb⟩ := y
  simp_all

theorem semverLt_asymm {a b : SemVer} (h : SemVer.lt a b = true) :
    SemVer.lt b a = false := by
  cases hba : SemVer.lt b a with
  | false => rfl
  | true =>
    have := semverLt_trans h hba
    rw [semverLt_irrefl] at this
    exact absurd this (by simp)

theorem semverLt_not_lt_trans {a b c : SemVer} (h1 : SemVer.lt a b = false)
    (h2 : SemVer.lt b c = false) : SemVer.lt a c = false := by
  cases hac : SemVer.lt a c with
  | false => rfl
  | true =>
    cases hba : SemVer.lt b a with
    | true =>
      have := semverLt_trans hba hac
      rw [this] at h2
      exact h2
    | false =>
      have : a = b := semverLt_eq_of_not_lt h1 hba
      subst this
      rw [hac] at h2
      exact h2

/- ----- Highest-candidate selection lemmas ----- -/

theorem betterEntry_ge_left (a b : VersionEntry) :
    SemVer.lt (betterEntry a b).semver a.semver = false := by
  unfold betterEntry
  cases h : SemVer.lt a.semver b.semver with
  | true => simp only [h, if_true]; exact semverLt_asymm h
  | false => simp only [h, Bool.false_eq_true, if_false, semverLt_irrefl]

theorem betterEntry_ge_right (a b : VersionEntry) :
    SemVer.lt (betterEntry a b).semver b.semver = false := by
  unfold betterEntry
  cases h : SemVer.lt a.semver b.semver with
  | true => simp only [h, if_true, semverLt_irrefl]
  | false => simp only [h, Bool.false_eq_true, if_false]

theorem foldl_betterEntry_mem : ∀ (es : List VersionEntry) (acc : VersionEntry),
    es.foldl betterEntry acc = acc ∨ es.foldl betterEntry acc ∈ es
  | [], _ => Or.inl rfl
  | e :: es, acc => by
    rw [List.foldl_cons]
    rcases foldl_betterEntry_mem es (betterEntry acc e) with h | h
    · rw [h]
      unfold betterEntry
      by_cases hlt : SemVer.lt acc.semver e.semver = true
      · rw [if_pos hlt]
        exact Or.inr (List.mem_cons_self _ _)
      · rw [if_neg hlt]
        exact Or.inl rfl
    · exact Or.inr (List.mem_cons_of_mem _ h)

theorem foldl_betterEntry_ge_acc : ∀ (es : List VersionEntry) (acc : VersionEntry),
    SemVer.lt (es.foldl betterEntry acc).semver acc.semver = false
  | [], acc => semverLt_irrefl acc.semver
  | e :: es, acc => by
    rw [List.foldl_cons]
    exact semverLt_not_lt_trans (foldl_betterEntry_ge_acc es (betterEntry acc e))
      (betterEntry_ge_left acc e)

theorem foldl_betterEntry_ge_all : ∀ (es : List VersionEntry) (acc u : VersionEntry),
    u ∈ es → SemVer.lt (es.foldl betterEntry acc).semver u.semver = false
  | [], _, _, hu => absurd hu (List.not_mem_nil _)
  | e :: es, acc, u, hu => by
    rw [List.foldl_cons]
    rcases List.mem_cons.mp hu with rfl | hu
    · exact semverLt_not_lt_trans (foldl_betterEntry_ge_acc es (betterEntry acc u))
        (betterEntry_ge_right acc u)
    · exact foldl_betterEntry_ge_all es (betterEntry acc e) u hu

theorem pickHighest_mem {l : List VersionEntry} {e : VersionEntry}
    (h : pickHighest l = some e) : e ∈ l := by
  cases l with
  | nil => simp [pickHighest] at h
  | cons a as =>
    simp only [pickHighest, Option.some.injEq] at h
    rcases foldl_betterEntry_mem as a with h2 | h2
    · rw [← h, h2]; exact List.mem_cons_self _ _
    · exact List.mem_cons_of_mem _ (h ▸ h2)

theorem pickHighest_max {l : List VersionEntry} {e : VersionEntry}
    (h : pickHighest l = some e) :
    ∀ u ∈ l, SemVer.lt e.semver u.semver = false := by
  cases l with
  | nil => simp [pickHighest] at h
  | cons a as =>
    simp only [pickHighest, Option.some.injEq] at h
    intro u hu
    rcases List.mem_cons.mp hu with rfl | hu
    · exact h ▸ foldl_betterEntry_ge_acc as u
    · exact h ▸ foldl_betterEntry_ge_all as a u hu

/- ----- Pinned-arena lemmas ----- -/

theorem lookupPinned_cons (c0 : String) (i0 : PinnedInfo) (p : Pinned) (c : String) :
    lookupPinned ((c0, i0) :: p) c = if c = c0 then some i0 else lookupPinned p c :=
  rfl

theorem updateReqs_cons (ce : String) (ie : PinnedInfo) (rest : Pinned)
    (c : String) (pr : PathReq) :
    updateReqs ((ce, ie) :: rest) c pr =
      (if ce = c then (ce, ⟨ie.ver, ie.reqs ++ [pr]⟩) else (ce, ie))
        :: updateReqs rest c pr := by
  simp only [updateReqs, List.map_cons]

theorem lookupPinned_updateReqs (p : Pinned) (c : String) (pr : PathReq) (c' : String) :
    lookupPinned (updateReqs p c pr) c' =
      if c' = c then (lookupPinned p c').map (fun i => ⟨i.ver, i.reqs ++ [pr]⟩)
      else lookupPinned p c' := by
  induction p with
  | nil =>
    simp only [updateReqs, List.map_nil, lookupPinned, Option.map_none']
    split <;> rfl
  | cons e rest ih =>
    obtain ⟨ce, ie⟩ := e
    by_cases hce : ce = c
    · rw [updateReqs_cons, if_pos hce, lookupPinned_cons, lookupPinned_cons, ih]
      by_cases hc' : c' = ce
      · simp [hc', hce]
      · simp [hc']
    · rw [updateReqs_cons, if_neg hce, lookupPinned_cons, lookupPinned_cons, ih]
      by_cases hc' : c' = ce
      · have hnc : ¬ c' = c := by rw [hc']; exact hce
        simp [hc', hnc, hce]
      · simp [hc']

theorem updateReqs_keys (p : Pinned) (c : String) (pr : PathReq) :
    (updateReqs p c pr).map Prod.fst = p.map Prod.fst := by
  induction p with
  | nil => rfl
  | cons e rest ih =>
    obtain ⟨ce, ie⟩ := e
    by_cases hce : ce = c
    · rw [updateReqs_cons, if_pos hce]
      simp only [List.map_cons, ih]
    · rw [updateReqs_cons, if_neg hce]
      simp only [List.map_cons, ih]

theorem lookupPinned_isNone_updateReqs (p : Pinned) (c : String) (pr : PathReq)
    (c' : String) :
    (lookupPinned (updateReqs p c pr) c').isNone = (lookupPinned p c').isNone := by
  rw [lookupPinned_updateReqs]
  by_cases h : c' = c
  · simp [h]
  · simp [h]

theorem lookupPinned_none_not_mem {p : Pinned} {c : String}
    (h : lookupPinned p c = none) : c ∉ p.map Prod.fst := by
  induction p with
  | nil => simp
  | cons e rest ih =>
    obtain ⟨ce, ie⟩ := e
    rw [lookupPinned_cons] at h
    by_cases hc : c = ce
    · simp [hc] at h
    · simp only [if_neg hc] at h
      simp only [List.map_cons, List.mem_cons]
      exact fun hmem => by
        rcases hmem with hmem | hmem
        · exact hc hmem
        · exact ih h hmem

/- ----- Counting lemmas for the loop measure ----- -/

theorem length_filter_le_of_imp (l : List String) (p q : String → Bool)
    (himp : ∀ x, q x = true → p x = true) :
    (l.filter q).length ≤ (l.filter p).length := by
  induction l with
  | nil => exact Nat.le_refl 0
  | cons x xs ih =>
    rw [List.filter_cons, List.filter_cons]
    by_cases hq : q x = true
    · rw [if_pos hq, if_pos (himp x hq)]
      simpa using ih
    · rw [if_neg hq]
      by_cases hp : p x = true
      · rw [if_pos hp]
        exact le_trans ih (by simp)
      · rw [if_neg hp]
        exact ih

theorem length_filter_lt_of_witness (l : List String) (p q : String → Bool)
    (himp : ∀ x, q x = true → p x = true) {a : String} (ha : a ∈ l)
    (hpa : p a = true) (hqa : q a = false) :
    (l.filter q).length < (l.filter p).length := by
  induction l with
  | nil => exact absurd ha (List.not_mem_nil a)
  | cons x xs ih =>
    rw [List.filter_cons, List.filter_cons]
    rcases List.mem_cons.mp ha with rfl | ha
    · rw [if_neg (by simp [hqa]), if_pos hpa]
      exact Nat.lt_succ_of_le (length_filter_le_of_imp xs p q himp)
    · by_cases hq : q x = true
      · rw [if_pos hq, if_pos (himp x hq)]
        simpa using ih ha
      · rw [if_neg hq]
        by_cases hp : p x = true
        · rw [if_pos hp]
          exact Nat.lt_succ_of_le (le_of_lt (ih ha))
        · rw [if_neg hp]
          exact ih ha

theorem unpinnedCount_cons_lt (reg : Registry) (pinned : Pinned) (comp : String)
    (info : PinnedInfo) (hmem : comp ∈ (reg.map (·.component)).dedup)
    (hnone : lookupPinned pinned comp = none) :
    unpinnedCount reg ((comp, info) :: pinned) < unpinnedCount reg pinned := by
  unfold unpinnedCount
  apply length_filter_lt_of_witness _ _ _ _ hmem
  · rw [hnone]
    rfl
  · rw [lookupPinned_cons, if_pos rfl]
    rfl
  · intro x hx
    rw [lookupPinned_cons] at hx
    by_cases hxc : x = comp
    · rw [if_pos hxc] at hx
      exact absurd hx (by simp)
    · rwa [if_neg hxc] at hx

theorem unpinnedCount_updateReqs (reg : Registry) (pinned : Pinned) (c : String)
    (pr : PathReq) :
    unpinnedCount reg (updateReqs pinned c pr) = unpinnedCount reg pinned := by
  unfold unpinnedCount
  congr 1
  apply List.filter_congr
  intro x _
  rw [lookupPinned_isNone_updateReqs]

theorem foldl_max_le : ∀ (l : List VersionEntry) (acc : Nat),
    acc ≤ l.foldl (fun m e => max m e.deps.length) acc
  | [], _ => Nat.le_refl _
  | e :: es, acc =>
    le_trans (Nat.le_max_left acc e.deps.length) (foldl_max_le es _)

theorem deps_le_foldl_max : ∀ (l : List VersionEntry) (acc : Nat) {e : VersionEntry},
    e ∈ l → e.deps.length ≤ l.foldl (fun m x => max m x.deps.length) acc
  | [], _, _, h => absurd h (List.not_mem_nil _)
  | x :: xs, acc, e, h => by
    rw [List.foldl_cons]
    rcases List.mem_cons.mp h with rfl | h
    · exact le_trans (Nat.le_max_right acc e.deps.length) (foldl_max_le xs _)
    · exact deps_le_foldl_max xs _ h

theorem deps_le_maxDeps {reg : Registry} {e : VersionEntry} (h : e ∈ reg) :
    e.deps.length ≤ maxDeps reg :=
  deps_le_foldl_max reg 0 h

theorem expandDeps_length_le (e : VersionEntry) (profile : Profile)
    (path : List String) :
    (expandDeps e profile path).length ≤ e.deps.length := by
  unfold expandDeps
  rw [List.length_map]
  exact List.length_filter_le _ _

theorem candidate_component {e : VersionEntry} {c : String} {reqs : List PathReq}
    (h : isCandidate e c reqs = true) : e.component = c := by
  unfold isCandidate at h
  simp only [Bool.and_eq_true, decide_eq_true_eq] at h
  exact h.1.1.1

/- ----- Termination of the solver loop ----- -/

theorem loop_fuel_sufficient : ∀ (fuel : Nat) (reg : Registry) (profile : Profile)
    (pinned : Pinned) (queue : List WorkItem),
    loopBound reg pinned queue < fuel →
    loop reg profile fuel pinned queue ≠ LoopResult.outOfFuel := by
  intro fuel
  induction fuel with
  | zero =>
    intro reg profile pinned queue h
    exact absurd h (by omega)
  | succ fuel ih =>
    intro reg profile pinned queue h
    cases queue with
    | nil => simp [loop]
    | cons i rest =>
      simp only [loop]
      split
      · -- already pinned: re-check only
        split
        · apply ih
          unfold loopBound at h ⊢
          rw [unpinnedCount_updateReqs]
          simp only [List.length_cons] at h
          omega
        · simp
      · -- not pinned yet: expand once or fail
        rename_i heqnone
        split
        · rename_i e hpe
          apply ih
          have hmemf := pickHighest_mem hpe
          have hereg : e ∈ reg := (List.mem_filter.mp hmemf).1
          have hcand := (List.mem_filter.mp hmemf).2
          have hcomp : e.component = i.comp := candidate_component hcand
          have hdedup : i.comp ∈ (reg.map (·.component)).dedup := by
            rw [List.mem_dedup]
            exact List.mem_map.mpr ⟨e, hereg, hcomp⟩
          have hq : unpinnedCount reg
              ((i.comp, ⟨e.semver, [⟨i.path, i.req⟩]⟩) :: pinned)
              < unpinnedCount reg pinned :=
            unpinnedCount_cons_lt reg pinned i.comp _ hdedup heqnone
          have hd : (expandDeps e profile i.path).length ≤ maxDeps reg :=
            le_trans (expandDeps_length_le e profile i.path) (deps_le_maxDeps hereg)
          have hmul : (unpinnedCount reg
                ((i.comp, ⟨e.semver, [⟨i.path, i.req⟩]⟩) :: pinned) + 1)
                  * (maxDeps reg + 1)
              ≤ unpinnedCount reg pinned * (maxDeps reg + 1) :=
            Nat.mul_le_mul_right _ (Nat.succ_le_of_lt hq)
          unfold loopBound at h ⊢
          rw [Nat.succ_mul] at hmul
          simp only [List.length_cons, List.length_append] at h ⊢
          omega
        · split <;> simp

/- ----- Soundness of the solver loop ----- -/

theorem isCandidate_append {e : VersionEntry} {c : String} {reqs : List PathReq}
    {pr : PathReq} (h : isCandidate e c reqs = true)
    (hp : pr.req.satisfies e.semver = true) :
    isCandidate e c (reqs ++ [pr]) = true := by
  unfold isCandidate at h ⊢
  simp only [Bool.and_eq_true, List.all_append, List.all_cons, List.all_nil,
    Bool.and_true] at h ⊢
  exact ⟨h.1, h.2, hp⟩

theorem isCandidate_of_append {e : VersionEntry} {c : String} {reqs : List PathReq}
    {pr : PathReq} (h : isCandidate e c (reqs ++ [pr]) = true) :
    isCandidate e c reqs = true ∧ pr.req.satisfies e.semver = true := by
  unfold isCandidate at h ⊢
  simp only [Bool.and_eq_true, List.all_append, List.all_cons, List.all_nil,
    Bool.and_true] at h ⊢
  exact ⟨⟨h.1, h.2.1⟩, h.2.2⟩

theorem loop_ok_sound : ∀ (fuel : Nat) (reg : Registry) (profile : Profile)
    (pinned : Pinned) (queue : List WorkItem) (res : Pinned),
    SelectedHighest reg pinned → (pinned.map Prod.fst).Nodup →
    loop reg profile fuel pinned queue = LoopResult.ok res →
    SelectedHighest reg res ∧ (res.map Prod.fst).Nodup := by
  intro fuel
  induction fuel with
  | zero =>
    intro reg profile pinned queue res _ _ hloop
    simp [loop] at hloop
  | succ fuel ih =>
    intro reg profile pinned queue res hinv hnd hloop
    cases queue with
    | nil =>
      simp only [loop, LoopResult.ok.injEq] at hloop
      subst hloop
      exact ⟨hinv, hnd⟩
    | cons i rest =>
      simp only [loop] at hloop
      split at hloop
      · -- revisit of a pinned component
        rename_i info heq
        split at hloop
        · rename_i hsat
          apply ih reg profile _ rest res _ _ hloop
          · intro c cinfo hlook
            rw [lookupPinned_updateReqs] at hlook
            by_cases hc : c = i.comp
            · rw [if_pos hc] at hlook
              subst hc
              rw [heq] at hlook
              simp only [Option.map_some', Option.some.injEq] at hlook
              subst hlook
              obtain ⟨⟨e, hereg, hcand, hsem⟩, hmax⟩ := hinv i.comp info heq
              constructor
              · exact ⟨e, hereg, isCandidate_append hcand (by rw [hsem]; exact hsat), hsem⟩
              · intro u hureg hucand
                exact hmax u hureg (isCandidate_of_append hucand).1
            · rw [if_neg hc] at hlook
              exact hinv c cinfo hlook
          · rw [updateReqs_keys]
            exact hnd
        · simp at hloop
      · -- first visit: pin the highest candidate
        rename_i heqnone
        split at hloop
        · rename_i e hpe
          apply ih reg profile _ _ res _ _ hloop
          · intro c cinfo hlook
            rw [lookupPinned_cons] at hlook
            by_cases hc : c = i.comp
            · rw [if_pos hc] at hlook
              subst hc
              injection hlook with hlook
              subst hlook
              have hmemf := pickHighest_mem hpe
              have hereg : e ∈ reg := (List.mem_filter.mp hmemf).1
              have hcand := (List.mem_filter.mp hmemf).2
              constructor
              · exact ⟨e, hereg, hcand, rfl⟩
              · intro u hureg hucand
                exact pickHighest_max hpe u (List.mem_filter.mpr ⟨hureg, hucand⟩)
            · rw [if_neg hc] at hlook
              exact hinv c cinfo hlook
          · rw [List.map_cons]
            exact List.nodup_cons.mpr ⟨lookupPinned_none_not_mem heqnone, hnd⟩
        · split at hloop <;> simp at hloop

theorem resolve_ok_sound {reg : Registry} {profile : Profile}
    {requests : List (String × VersionReq)} {res : Pinned}
    (h : resolve reg profile requests = Except.ok res) :
    SelectedHighest reg res ∧ (res.map Prod.fst).Nodup := by
  unfold resolve at h
  split at h
  · rename_i p hl
    injection h with h
    subst h
    exact loop_ok_sound _ reg profile [] (initQueue requests) p
      (fun c info hlook => by simp [lookupPinned] at hlook)
      (by simp) hl
  · simp at h
  · simp at h

/- ----- EnvBuilder.supportPlatform lemmas ----- -/

theorem supportPlatform_noop {os arch : String} {b : EnvBuilder}
    {q : PlatformConstraints} (hq : b.manifest.platform = some q)
    (hos : os ∈ q.os) (harch : arch ∈ q.arch) :
    b.supportPlatform os arch = b := by
  obtain ⟨⟨n, v, d, dd, caps, plat⟩, instrs⟩ := b
  simp only at hq
  subst hq
  simp [EnvBuilder.supportPlatform, hos, harch]

theorem supportPlatform_mem (b : EnvBuilder) (os arch : String) :
    ∃ q, (b.supportPlatform os arch).manifest.platform = some q ∧
      os ∈ q.os ∧ arch ∈ q.arch := by
  obtain ⟨⟨n, v, d, dd, caps, plat⟩, instrs⟩ := b
  cases plat with
  | none =>
    simp only [EnvBuilder.supportPlatform]
    refine ⟨_, rfl, ?_, ?_⟩ <;> simp
  | some p =>
    simp only [EnvBuilder.supportPlatform]
    refine ⟨_, rfl, ?_, ?_⟩
    · by_cases h : os ∈ p.os
      · rw [if_pos h]
        exact h
      · rw [if_neg h]
        simp
    · by_cases h : arch ∈ p.arch
      · rw [if_pos h]
        exact h
      · rw [if_neg h]
        simp

theorem supportPlatform_nodup {b : EnvBuilder} (hb : platformNodup b = true)
    (os arch : String) : platformNodup (b.supportPlatform os arch) = true := by
  obtain ⟨⟨n, v, d, dd, caps, plat⟩, instrs⟩ := b
  cases plat with
  | none => simp [EnvBuilder.supportPlatform, platformNodup]
  | some p =>
    simp only [platformNodup, Bool.and_eq_true, decide_eq_true_eq] at hb
    simp only [EnvBuilder.supportPlatform, platformNodup, Bool.and_eq_true,
      decide_eq_true_eq]
    constructor
    · by_cases h : os ∈ p.os
      · rw [if_pos h]
        exact hb.1
      · rw [if_neg h]
        simp [List.nodup_append, hb.1, h]
    · by_cases h : arch ∈ p.arch
      · rw [if_pos h]
        exact hb.2
      · rw [if_neg h]
        simp [List.nodup_append, hb.2, h]

/- ----- JavaScript-value lemmas ----- -/

theorem jsGet_of_not_truthy {v : JsValue} (h : truthy v = false) (k : String) :
    jsGet v k = JsValue.undefinedV := by
  cases v with
  | undefinedV => rfl
  | nullV => rfl
  | boolV b => rfl
  | numV n => rfl
  | strV s => rfl
  | obj fields => exact absurd h (by simp [truthy])

/- ===== Claim theorems ===== -/

/-- C5: the set of capability tokens a declaration may carry is exactly
fs-read, fs-write, net-outbound, sys-exec and env-read: every Capability
variant's token is one of the five strings, the five variants map onto the
five token strings in order, and every variant is representable. -/
theorem capability_token_set_exact :
    (∀ cap : Capability, cap.token ∈ capabilityTokens) ∧
    allCapabilities.map Capability.token = capabilityTokens ∧
    ∀ cap : Capability, cap ∈ allCapabilities := by
  refine ⟨fun cap => ?_, rfl, fun cap => ?_⟩ <;>
    cases cap <;> simp [Capability.token, capabilityTokens, allCapabilities]

/-- C10: ConfigUtils.getConfig returns undefined when configuration is
absent and otherwise tries the root-level entry, then the plugin namespace,
then the tool namespace, returning the first truthy value: it coincides
with the specification model written from that description. -/
theorem getConfig_precedence :
    ∀ (ctx : SdkResolutionContext) (key : String),
      ConfigUtils.getConfig ctx key = getConfigSpecModel ctx key := by
  intro ctx key
  obtain ⟨proot, cfg⟩ := ctx
  cases cfg with
  | none => rfl
  | some config =>
    simp only [ConfigUtils.getConfig, getConfigSpecModel]
    cases hc : truthy config with
    | false =>
      have hgett : ∀ k, truthy (jsGet config k) = false := fun k => by
        rw [jsGet_of_not_truthy hc k]
        rfl
      have hnest : ∀ k k2, truthy (jsGet (jsGet config k) k2) = false :=
        fun k k2 => by
          rw [jsGet_of_not_truthy hc k]
          rfl
      rw [if_neg (by simp [hc]), if_neg (by simp [hgett]),
        if_neg (by simp [hnest]), if_neg (by simp [hnest])]
    | true =>
      rw [if_pos rfl]
      have tailEq :
          (if (truthy (jsGet config "tool")
                && truthy (jsGet (jsGet config "tool") key)) = true
            then jsGet (jsGet config "tool") key else JsValue.undefinedV)
          = (if truthy (jsGet (jsGet config "tool") key) = true
            then jsGet (jsGet config "tool") key else JsValue.undefinedV) := by
        by_cases ht : truthy (jsGet config "tool") = true
        · by_cases h3 : truthy (jsGet (jsGet config "tool") key) = true
          · rw [if_pos (by simp [ht, h3]), if_pos h3]
          · rw [if_neg (by simp [h3]), if_neg h3]
        · have h3 : truthy (jsGet (jsGet config "tool") key) = false := by
            rw [jsGet_of_not_truthy (Bool.eq_false_iff.mpr ht) key]
            rfl
          rw [if_neg (by simp [ht]), if_neg (by simp [h3])]
      by_cases h1 : truthy (jsGet config key) = true
      · rw [if_pos h1, if_pos h1]
      · rw [if_neg h1, if_neg h1]
        by_cases hp : truthy (jsGet config "plugin") = true
        · by_cases h2 : truthy (jsGet (jsGet config "plugin") key) = true
          · rw [if_pos (by simp [hp, h2]), if_pos h2]
          · rw [if_neg (by simp [h2]), if_neg h2]
            exact tailEq
        · have h2 : truthy (jsGet (jsGet config "plugin") key) = false := by
            rw [jsGet_of_not_truthy (Bool.eq_false_iff.mpr hp) key]
            rfl
          rw [if_neg (show ¬ (truthy (jsGet config "plugin")
                && truthy (jsGet (jsGet config "plugin") key)) = true by
              simp [hp]),
            if_neg (show ¬ truthy (jsGet (jsGet config "plugin") key) = true by
              simp [h2])]
          exact tailEq

/-- C9: supportPlatform is idempotent, and after any sequence of
supportPlatform calls from a fresh EnvBuilder the platform os and arch
arrays carry no duplicate entries. -/
theorem supportPlatform_idempotent_nodup :
    (∀ (b : EnvBuilder) (os arch : String),
        (b.supportPlatform os arch).supportPlatform os arch
          = b.supportPlatform os arch) ∧
    ∀ calls : List (String × String),
      platformNodup (applyPlatformCalls EnvBuilder.new calls) = true := by
  constructor
  · intro b os arch
    obtain ⟨q, hq, hos, harch⟩ := supportPlatform_mem b os arch
    exact supportPlatform_noop hq hos harch
  · have hgen : ∀ (calls : List (String × String)) (b : EnvBuilder),
        platformNodup b = true →
        platformNodup (applyPlatformCalls b calls) = true := by
      intro calls
      induction calls with
      | nil => exact fun b hb => hb
      | cons cpair rest ih =>
        exact fun b hb => ih _ (supportPlatform_nodup hb cpair.1 cpair.2)
    exact fun calls => hgen calls EnvBuilder.new rfl

/-- C7: a well-formed dependency edge has distinct source and target and a
kind drawn from runtime, dev and build; the closed DepKind type maps onto
exactly those kind strings; and the table's PRIMARY KEY (source_id,
target_id) admits several well-formed edges sharing one source. -/
theorem dependency_edge_invariants :
    (∀ r : DependencyEdgeRow, edgeWellFormed r = true →
        r.sourceId ≠ r.targetId ∧ r.kind ∈ dependencyKinds) ∧
    (∀ k : DepKind, k.text ∈ dependencyKinds) ∧
    (dependenciesPKOk
        [⟨"s", "t1", "^1.0", "runtime"⟩, ⟨"s", "t2", ">=1.2", "dev"⟩] ∧
      edgeWellFormed ⟨"s", "t1", "^1.0", "runtime"⟩ = true ∧
      edgeWellFormed ⟨"s", "t2", ">=1.2", "dev"⟩ = true) := by
  refine ⟨?_, ?_, by unfold dependenciesPKOk; decide, by decide, by decide⟩
  · intro r h
    unfold edgeWellFormed at h
    simp only [Bool.and_eq_true, decide_eq_true_eq] at h
    exact h
  · intro k
    cases k <;> simp [DepKind.text, dependencyKinds]

theorem dependency_edge_invariants_witness :
    "s" ≠ "t1" ∧ "runtime" ∈ dependencyKinds :=
  dependency_edge_invariants.1 ⟨"s", "t1", "^1.0", "runtime"⟩ (by decide)

/-- C6: scan results are unique per version (two rows of a table satisfying
the UNIQUE constraint that share a version id are the same row), the status
enum is exactly Pending/Safe/Suspicious/Malicious, an omitted status
defaults to Pending, publishing a version always creates its scan result in
Pending state, and publishing a fresh version preserves the UNIQUE
constraint. -/
theorem scan_result_invariants :
    (∀ rows : List ScanResultRow, scanResultsUnique rows →
        ∀ r1 ∈ rows, ∀ r2 ∈ rows, r1.versionId = r2.versionId → r1 = r2) ∧
    (∀ s : ScanStatus, s ∈ allScanStatuses) ∧
    (∀ vid : String, (mkScanResult vid none).status = ScanStatus.pending) ∧
    (∀ (t : RegistryTables) (vid : String),
        ∃ r ∈ (publishVersion t vid).scanResults,
          r.versionId = vid ∧ r.status = ScanStatus.pending) ∧
    (∀ (t : RegistryTables) (vid : String), scanResultsUnique t.scanResults →
        vid ∉ t.scanResults.map (·.versionId) →
        scanResultsUnique (publishVersion t vid).scanResults) := by
  refine ⟨?_, ?_, fun vid => rfl, ?_, ?_⟩
  · intro rows hu r1 h1 r2 h2 heq
    exact List.inj_on_of_nodup_map hu h1 h2 heq
  · intro s
    cases s <;> simp [allScanStatuses]
  · intro t vid
    exact ⟨mkScanResult vid none, List.mem_cons_self _ _, rfl, rfl⟩
  · intro t vid hu hfresh
    exact List.nodup_cons.mpr ⟨hfresh, hu⟩

theorem scan_result_invariants_witness :
    (⟨"v1", ScanStatus.safe, ""⟩ : ScanResultRow)
      = (⟨"v1", ScanStatus.safe, ""⟩ : ScanResultRow) :=
  scan_result_invariants.1 [⟨"v1", ScanStatus.safe, ""⟩]
    (by unfold scanResultsUnique; decide)
    ⟨"v1", ScanStatus.safe, ""⟩ (List.mem_cons_self _ _)
    ⟨"v1", ScanStatus.safe, ""⟩ (List.mem_cons_self _ _) rfl

/-- C4: every declaration with an unconstrained scope is rejected as
PolicyViolation (both by the per-declaration check and by validate on that
declaration) regardless of what the granted policy contains, PolicyViolation
and CapabilityError are distinct errors, and a declaration of fs-read over
the filesystem root is rejected as PolicyViolation even when the same scope
appears in the granted policy. -/
theorem validate_policy_violations :
    (∀ (granted : List CapScope) (d : CapScope), unconstrainedScope d = true →
        checkDeclaration granted d
          = Except.error (ValidationError.policyViolation d)) ∧
    (∀ (granted : List CapScope) (d : CapScope), unconstrainedScope d = true →
        validate [d] granted
          = Except.error (ValidationError.policyViolation d)) ∧
    (∀ d d2 : CapScope,
        ValidationError.policyViolation d ≠ ValidationError.capabilityError d2) ∧
    validate [CapScope.fsReadScope "/"] [CapScope.fsReadScope "/"]
      = Except.error (ValidationError.policyViolation (CapScope.fsReadScope "/")) := by
  refine ⟨?_, ?_, ?_, rfl⟩
  · intro granted d h
    unfold checkDeclaration
    rw [if_pos h]
  · intro granted d h
    simp [validate, checkDeclaration, h]
  · intro d d2
    simp

theorem validate_policy_violations_witness :
    checkDeclaration [] (CapScope.sysExecScope none)
      = Except.error (ValidationError.policyViolation (CapScope.sysExecScope none)) :=
  validate_policy_violations.1 [] (CapScope.sysExecScope none) rfl

/-- C1: checkTrust returns Trusted exactly when the scan verdict is Safe,
exactly one Platform signature and at least one Developer signature are
present, the version is Approved and it is not yanked; without a Platform
signature the result is never Trusted regardless of Developer signatures;
and in the trust-flip scenario a Safe, Approved version with only a
Developer signature reports Untrusted("missing platform signature") while
adding the Platform signature flips the result to Trusted. -/
theorem checkTrust_trusted_iff :
    (∀ (v : VersionEntry) (sigs : List Signature) (scan : ScanStatus),
        checkTrust v sigs scan = TrustResult.trusted ↔
          (scan = ScanStatus.safe ∧ platformSigCount sigs = 1 ∧
            1 ≤ developerSigCount sigs ∧
            v.approvalStatus = ApprovalStatus.approved ∧ v.isYanked = false)) ∧
    (∀ (v : VersionEntry) (sigs : List Signature) (scan : ScanStatus),
        platformSigCount sigs = 0 →
          checkTrust v sigs scan ≠ TrustResult.trusted) ∧
    (checkTrust flipVersion [devSig] ScanStatus.safe
        = TrustResult.untrusted "missing platform signature" ∧
      checkTrust flipVersion [devSig, platSig] ScanStatus.safe
        = TrustResult.trusted) := by
  refine ⟨?_, ?_, rfl, rfl⟩
  · intro v sigs scan
    cases scan with
    | pending => simp [checkTrust]
    | suspicious => simp [checkTrust]
    | malicious => simp [checkTrust]
    | safe =>
      simp only [checkTrust]
      split_ifs with h1 h2 h3 h4 h5 <;> simp_all <;> omega
  · intro v sigs scan h0
    cases scan with
    | pending => simp [checkTrust]
    | suspicious => simp [checkTrust]
    | malicious => simp [checkTrust]
    | safe =>
      simp only [checkTrust]
      rw [if_pos h0]
      simp

theorem checkTrust_trusted_iff_witness :
    checkTrust flipVersion [] ScanStatus.safe ≠ TrustResult.trusted :=
  checkTrust_trusted_iff.2.1 flipVersion [] ScanStatus.safe rfl

/-- C8 counterexample: Builder.build throws — with no filesystem entries,
building an absolute input path ends in a thrown Error rather than a
returned error value, so the public entry points do not all return errors
as values. -/
theorem builder_build_throws_counterexample :
    Builder.build emptyBuildEnv missingInputOpts
      = BuildOutcome.thrown "Input file not found: /app/in.js" := rfl

/-- C8 amended: the errors-as-values discipline does not extend to the SDK
build tooling: whenever the resolved input path does not exist,
Builder.build throws an Error naming the missing input instead of
returning an error value. -/
theorem builder_build_throw_behavior :
    ∀ (env : BuildEnv) (opts : ComponentizeOptions),
      env.existsSync (resolvedInput env opts) = false →
      Builder.build env opts
        = BuildOutcome.thrown ("Input file not found: " ++ resolvedInput env opts) := by
  intro env opts h
  simp [Builder.build, h]

theorem builder_build_throw_behavior_witness :
    Builder.build emptyBuildEnv ⟨"/app/other.js", "out.wasm", none, none⟩
      = BuildOutcome.thrown ("Input file not found: "
          ++ resolvedInput emptyBuildEnv ⟨"/app/other.js", "out.wasm", none, none⟩) :=
  builder_build_throw_behavior emptyBuildEnv ⟨"/app/other.js", "out.wasm", none, none⟩ rfl

/-- C2: whenever resolve succeeds, every pinned component carries a version
that is a candidate for the conjunction of all requirements that reached it
along every path and no such candidate is higher; the version ordering
compares major, minor and patch numerically, ranks a release above any
prerelease of the same triple, and compares prerelease fields numerically
and lexically; in the diamond the resolver selects D 1.2.0 recording both
requirement paths, and with only D 1.1.0 available it fails with a
ConflictError naming the paths A-B-D and A-C-D. -/
theorem resolve_selects_highest_merged :
    (∀ (reg : Registry) (profile : Profile)
        (requests : List (String × VersionReq)) (res : Pinned),
        resolve reg profile requests = Except.ok res →
        ∀ c info, lookupPinned res c = some info →
          (∃ e ∈ reg, isCandidate e c info.reqs = true ∧ e.semver = info.ver) ∧
          ∀ e ∈ reg, isCandidate e c info.reqs = true →
            SemVer.lt info.ver e.semver = false) ∧
    (SemVer.lt ⟨1, 1, 0, []⟩ ⟨1, 2, 0, []⟩ = true ∧
      SemVer.lt ⟨1, 2, 0, [PreId.alpha "alpha"]⟩ ⟨1, 2, 0, []⟩ = true ∧
      SemVer.lt ⟨1, 2, 0, []⟩ ⟨1, 2, 0, [PreId.alpha "alpha"]⟩ = false ∧
      SemVer.lt ⟨1, 2, 0, [PreId.alpha "alpha", PreId.num 1]⟩
        ⟨1, 2, 0, [PreId.alpha "alpha", PreId.num 2]⟩ = true ∧
      SemVer.lt ⟨1, 2, 0, [PreId.alpha "alpha"]⟩
        ⟨1, 2, 0, [PreId.alpha "beta"]⟩ = true) ∧
    resolve diamondReg Profile.runtime [("A", VersionReq.any)]
      = Except.ok diamondResult ∧
    resolve diamondRegLow Profile.runtime [("A", VersionReq.any)]
      = Except.error (ResolutionError.conflict "D" diamondDReqs) := by
  refine ⟨?_, by decide, rfl, rfl⟩
  intro reg profile requests res h c info hlook
  exact (resolve_ok_sound h).1 c info hlook

theorem resolve_selects_highest_merged_witness :
    SemVer.lt (⟨1, 2, 0, []⟩ : SemVer) entryD12.semver = false :=
  (resolve_selects_highest_merged.1 diamondReg Profile.runtime
      [("A", VersionReq.any)] diamondResult rfl "D"
      ⟨⟨1, 2, 0, []⟩, diamondDReqs⟩ rfl).2 entryD12 (by decide) (by decide)

/-- C3: the solver loop never exhausts the fuel resolve supplies (so
resolve terminates on every input, cyclic graphs included); on success the
pinned components are pairwise distinct, so each component was expanded at
most once; a work item for an already pinned component only re-checks the
pinned version against the new requirement, recording it, and never changes
the pinned version; and resolving the A-B dev-dependency two-cycle under
the dev profile terminates with A and B pinned exactly once each. -/
theorem resolve_terminates_on_cycles :
    (∀ (reg : Registry) (profile : Profile)
        (requests : List (String × VersionReq)),
        loop reg profile (initFuel reg requests) [] (initQueue requests)
          ≠ LoopResult.outOfFuel) ∧
    (∀ (reg : Registry) (profile : Profile)
        (requests : List (String × VersionReq)) (res : Pinned),
        resolve reg profile requests = Except.ok res →
        (res.map Prod.fst).Nodup) ∧
    (∀ (reg : Registry) (profile : Profile) (fuel : Nat) (pinned : Pinned)
        (i : WorkItem) (rest : List WorkItem) (info : PinnedInfo),
        lookupPinned pinned i.comp = some info →
        i.req.satisfies info.ver = true →
        loop reg profile (fuel + 1) pinned (i :: rest)
            = loop reg profile fuel
                (updateReqs pinned i.comp ⟨i.path, i.req⟩) rest ∧
          lookupPinned (updateReqs pinned i.comp ⟨i.path, i.req⟩) i.comp
            = some ⟨info.ver, info.reqs ++ [⟨i.path, i.req⟩]⟩) ∧
    resolve cycleReg Profile.dev [("A", VersionReq.any)]
      = Except.ok cycleResult := by
  refine ⟨?_, ?_, ?_, rfl⟩
  · intro reg profile requests
    exact loop_fuel_sufficient _ reg profile [] (initQueue requests)
      (Nat.lt_succ_self _)
  · intro reg profile requests res h
    exact (resolve_ok_sound h).2
  · intro reg profile fuel pinned i rest info hl hs
    constructor
    · simp only [loop, hl, hs, if_true]
    · rw [lookupPinned_updateReqs, if_pos rfl, hl]
      rfl

theorem resolve_terminates_on_cycles_witness :
    (cycleResult.map Prod.fst).Nodup :=
  resolve_terminates_on_cycles.2.1 cycleReg Profile.dev
    [("A", VersionReq.any)] cycleResult rfl
